import Mathlib

/-!
Verification of the adversarial search engine in
`term1/AIND-Isolation/game_agent.py`: the evaluation function
`custom_score`, the search cores `minimax` and `alphabeta`, and the
time-bounded iterative-deepening driver `get_move` of `CustomPlayer`.

Python floats `float("-inf")`, finite scores and `float("+inf")` are
modelled by the linearly ordered type `WithBot (WithTop Int)` (all finite
scores produced by the code are integers); `⊥` is the negative-extreme
sentinel and `⊤` the positive-extreme sentinel.  The wall-clock probe
`time_left` is modelled as a stream of integer readings indexed by the
number of probe calls made so far; every search call consumes one reading,
and the `Timeout` exception is the `Except.error` channel.
-/

/-- One of exactly two player identities. -/
abbrev Player := Bool

/-- A move: a (row, col) coordinate pair; `(-1, -1)` is the no-move sentinel. -/
abbrev Move := Int × Int

/-- Scores: integers extended with a negative-extreme (`⊥`, Python
`float("-inf")`) and a positive-extreme (`⊤`, Python `float("+inf")`)
sentinel, linearly ordered. -/
abbrev Score := WithBot (WithTop Int)

/-- Embed a finite (integer) value into `Score`. -/
def intScore (n : Int) : Score := ((n : WithTop Int) : Score)

/-- Modelled from the spec: the external `isolation.Board` adapter
(spec section 6), which is not part of this repository's source tree.
It exposes read-only accessors, legal-move generation in a fixed
deterministic order, terminal-state predicates and immutable move
forecasting, exactly the operations `game_agent.py` consumes. -/
structure Board (σ : Type) where
  width : σ → Nat
  height : σ → Nat
  move_count : σ → Nat
  active_player : σ → Player
  get_legal_moves : σ → Player → List Move
  is_loser : σ → Player → Bool
  is_winner : σ → Player → Bool
  forecast_move : σ → Move → σ

/-- Modelled from the spec: `get_opponent` returns the other of the two
player identities. -/
def Board.get_opponent {σ : Type} (_B : Board σ) (p : Player) : Player := !p

/-- Modelled from the spec: `inactive_player` is the opponent of the
active player. -/
def Board.inactive_player {σ : Type} (B : Board σ) (g : σ) : Player :=
  !(B.active_player g)

/-- Modelled from the spec: the no-argument form `game.get_legal_moves()`
used inside the search cores returns the legal moves of the active player. -/
def Board.legal_moves_active {σ : Type} (B : Board σ) (g : σ) : List Move :=
  B.get_legal_moves g (B.active_player g)

/-- The `Timeout` exception class of `game_agent.py` (deadline exceeded). -/
inductive Timeout : Type where
  | mk : Timeout
deriving DecidableEq

/-- Translation of `custom_score` (game_agent.py lines 17-47): negative
extreme if the given player has lost, positive extreme if they have won,
otherwise the mobility differential. -/
def custom_score {σ : Type} (B : Board σ) (g : σ) (player : Player) : Score :=
  if B.is_loser g player then ⊥
  else if B.is_winner g player then ⊤
  else
    intScore (((B.get_legal_moves g player).length : Int)
      - ((B.get_legal_moves g (B.get_opponent player)).length : Int))

/-- Translation of the `CustomPlayer` configuration (constructor,
game_agent.py lines 80-87).  `score` is the configured `score_fn`,
`TIMER_THRESHOLD` the configured `timeout` margin. -/
structure CustomPlayer (σ : Type) where
  search_depth : Nat := 3
  iterative : Bool := true
  score : σ → Player → Score
  method : String := "minimax"
  TIMER_THRESHOLD : Int := 10

/-- Translation of the `for move in legal_moves` loop of
`CustomPlayer.minimax` (game_agent.py lines 207-219).  `recur` is the
recursive call at the decremented depth and flipped flag; it returns the
score component together with the advanced probe counter, or a `Timeout`. -/
def minimaxLoop {σ : Type} (B : Board σ) (g : σ)
    (recur : σ → Nat → Except Timeout (Score × Nat)) (maxi : Bool) :
    List Move → Score → Move → Nat → Except Timeout ((Score × Move) × Nat)
  | [], hs, nm, t => .ok ((hs, nm), t)
  | m :: ms, hs, nm, t =>
    match recur (B.forecast_move g m) t with
    | .error e => .error e
    | .ok (ps, t') =>
      if (if maxi then hs < ps else ps < hs) then
        minimaxLoop B g recur maxi ms ps m t'
      else
        minimaxLoop B g recur maxi ms hs nm t'

/-- Translation of `CustomPlayer.minimax` (game_agent.py lines 164-224).
The probe stream `probe` is consulted once at entry of every call (the
counter `t` records how many readings have been consumed); a reading
strictly below `TIMER_THRESHOLD` raises `Timeout`.  At depth 0 the
configured score function evaluates the position from the perspective of
the active player when maximizing, the inactive player otherwise. -/
def minimax {σ : Type} (c : CustomPlayer σ) (B : Board σ) (probe : Nat → Int) :
    Nat → σ → Bool → Nat → Except Timeout ((Score × Move) × Nat)
  | 0, g, maxi, t =>
    if probe t < c.TIMER_THRESHOLD then .error Timeout.mk
    else
      .ok ((c.score g (if maxi then B.active_player g else B.inactive_player g),
        ((-1 : Int), (-1 : Int))), t + 1)
  | d + 1, g, maxi, t =>
    if probe t < c.TIMER_THRESHOLD then .error Timeout.mk
    else
      minimaxLoop B g
        (fun g' t' => (minimax c B probe d g' (!maxi) t').map (fun r => (r.1.1, r.2)))
        maxi (B.legal_moves_active g)
        (if maxi then (⊥ : Score) else ⊤) ((-1 : Int), (-1 : Int)) (t + 1)

/-- Translation of the `for move in legal_moves` loop of
`CustomPlayer.alphabeta` (game_agent.py lines 276-297): track the running
extreme, tighten `alpha` (maximizing) or `beta` (minimizing) with it, and
stop enumerating as soon as `beta <= alpha`. -/
def alphabetaLoop {σ : Type} (B : Board σ) (g : σ)
    (recur : σ → Score → Score → Nat → Except Timeout (Score × Nat)) (maxi : Bool) :
    List Move → Score → Score → Score → Move → Nat →
      Except Timeout ((Score × Move) × Nat)
  | [], _, _, hs, nm, t => .ok ((hs, nm), t)
  | m :: ms, alpha, beta, hs, nm, t =>
    match recur (B.forecast_move g m) alpha beta t with
    | .error e => .error e
    | .ok (ps, t') =>
      if maxi then
        let hs' := if hs < ps then ps else hs
        let nm' := if hs < ps then m else nm
        let alpha' := max alpha hs'
        if beta ≤ alpha' then .ok ((hs', nm'), t')
        else alphabetaLoop B g recur maxi ms alpha' beta hs' nm' t'
      else
        let hs' := if ps < hs then ps else hs
        let nm' := if ps < hs then m else nm
        let beta' := min beta hs'
        if beta' ≤ alpha then .ok ((hs', nm'), t')
        else alphabetaLoop B g recur maxi ms alpha beta' hs' nm' t'

/-- Translation of `CustomPlayer.alphabeta` (game_agent.py lines 226-301). -/
def alphabeta {σ : Type} (c : CustomPlayer σ) (B : Board σ) (probe : Nat → Int) :
    Nat → σ → Score → Score → Bool → Nat → Except Timeout ((Score × Move) × Nat)
  | 0, g, _, _, maxi, t =>
    if probe t < c.TIMER_THRESHOLD then .error Timeout.mk
    else
      .ok ((c.score g (if maxi then B.active_player g else B.inactive_player g),
        ((-1 : Int), (-1 : Int))), t + 1)
  | d + 1, g, alpha, beta, maxi, t =>
    if probe t < c.TIMER_THRESHOLD then .error Timeout.mk
    else
      alphabetaLoop B g
        (fun g' a b t' =>
          (alphabeta c B probe d g' a b (!maxi) t').map (fun r => (r.1.1, r.2)))
        maxi (B.legal_moves_active g) alpha beta
        (if maxi then (⊥ : Score) else ⊤) ((-1 : Int), (-1 : Int)) (t + 1)

/-- Translation of the depth schedule of `CustomPlayer.get_move`
(game_agent.py line 145): Python
`list(range(1, game.move_count + game.width * game.height - 1))` when
iterative deepening is enabled, the singleton `[search_depth]` otherwise. -/
def iteration_candidate {σ : Type} (c : CustomPlayer σ) (B : Board σ) (g : σ) :
    List Nat :=
  if c.iterative then
    List.range' 1 (B.move_count g + B.width g * B.height g - 2)
  else [c.search_depth]

/-- Translation of the core dispatch of `CustomPlayer.get_move`
(game_agent.py line 148): `alphabeta` when `method == 'alphabeta'` (with
the default full window and maximizing flag), `minimax` otherwise. -/
def searchCall {σ : Type} (c : CustomPlayer σ) (B : Board σ) (probe : Nat → Int)
    (g : σ) (depth : Nat) (t : Nat) : Except Timeout ((Score × Move) × Nat) :=
  if c.method = "alphabeta" then alphabeta c B probe depth g ⊥ ⊤ true t
  else minimax c B probe depth g true t

/-- Translation of the `for depth in iteration_candidate` loop of
`CustomPlayer.get_move` together with the surrounding `try`/`except
Timeout` (game_agent.py lines 140-162): a `Timeout` from a search aborts
the whole loop and the driver returns the recorded `next_move`; a
positive-extreme score breaks out of the loop (returning the recorded
`next_move`); any score other than the negative extreme makes the
returned move the new `next_move`. -/
def driverLoop {σ : Type} (c : CustomPlayer σ) (B : Board σ) (probe : Nat → Int)
    (g : σ) : List Nat → Move → Nat → Move
  | [], nm, _ => nm
  | d :: ds, nm, t =>
    match searchCall c B probe g d t with
    | .error _ => nm
    | .ok ((s, mv), t') =>
      if s = (⊤ : Score) then nm
      else if s = (⊥ : Score) then driverLoop c B probe g ds nm t'
      else driverLoop c B probe g ds mv t'

/-- Translation of `CustomPlayer.get_move` (game_agent.py lines 89-162):
return the no-move sentinel immediately when `legal_moves` is empty,
otherwise seed `next_move` with the first legal move and run the
iterative-deepening driver loop. -/
def get_move {σ : Type} (c : CustomPlayer σ) (B : Board σ) (probe : Nat → Int)
    (g : σ) (legal_moves : List Move) : Move :=
  match legal_moves with
  | [] => ((-1 : Int), (-1 : Int))
  | m0 :: _ => driverLoop c B probe g (iteration_candidate c B g) m0 0

/-! Concrete boards used to exercise the definitions on explicit inputs.
States are numbered; `DemoBoard` is a 2×2 board fragment in which the
active player at state 0 has two legal moves: `(0,0)` leads to a quiet
state 1 while `(0,1)` leads to state 2, an immediate win for player
`true`.  State 3 is a state whose active player has no legal moves;
state 4 gives the 3-versus-1 mobility scenario; state 5 is a quiet state
with differential `-1`. -/

/-- Legal-move table of the demo board. -/
def demoMoves : Nat → Player → List Move
  | 0, true => [(0, 0), (0, 1)]
  | 0, false => [(1, 1)]
  | 1, true => [(1, 0), (0, 1)]
  | 1, false => [(1, 0)]
  | 4, true => [(0, 0), (0, 1), (1, 0)]
  | 4, false => [(1, 1)]
  | 5, true => [(0, 0)]
  | 5, false => [(0, 1), (1, 1)]
  | _, _ => []

/-- Transition table of the demo board. -/
def demoForecast : Nat → Move → Nat
  | 0, (0, 0) => 1
  | 0, (0, 1) => 2
  | 1, (1, 0) => 5
  | _, _ => 7

/-- Active-player table of the demo board. -/
def demoActive : Nat → Player
  | 1 => false
  | 2 => false
  | _ => true

/-- A small concrete board over states `Nat`. -/
def DemoBoard : Board Nat where
  width _ := 2
  height _ := 2
  move_count _ := 0
  active_player := demoActive
  get_legal_moves := demoMoves
  is_loser g p := g = 6 && p = true
  is_winner g p := g = 2 && p = true
  forecast_move := demoForecast

/-- Iterative-deepening minimax configuration for the demo board. -/
def cfgIterMM : CustomPlayer Nat where
  search_depth := 3
  iterative := true
  score := custom_score DemoBoard
  method := "minimax"
  TIMER_THRESHOLD := 10

/-- Fixed-depth (depth 1) minimax configuration for the demo board. -/
def cfgFixedMM : CustomPlayer Nat where
  search_depth := 1
  iterative := false
  score := custom_score DemoBoard
  method := "minimax"
  TIMER_THRESHOLD := 10

/-- A probe stream with ample remaining time. -/
def probeHigh : Nat → Int := fun _ => 1000

/-- A probe stream that is already out of budget. -/
def probeLow : Nat → Int := fun _ => 0

/-- A probe stream pinned exactly at the configured margin. -/
def probeEdge : Nat → Int := fun _ => 10

/-- A 3×3 board fragment with four moves already played, used to inspect
the iterative-deepening depth schedule. -/
def DemoBoard3 : Board Nat where
  width _ := 3
  height _ := 3
  move_count _ := 4
  active_player _ := true
  get_legal_moves g p := demoMoves g p
  is_loser _ _ := false
  is_winner _ _ := false
  forecast_move := demoForecast

/-- Iterative-deepening minimax configuration for the 3×3 demo board. -/
def cfgIter3 : CustomPlayer Nat where
  search_depth := 3
  iterative := true
  score := custom_score DemoBoard3
  method := "minimax"
  TIMER_THRESHOLD := 10

/-! Timeout-free counterparts of the two search cores.  When the probe
never reads strictly below the margin, the clocked functions return
exactly these values (bridge lemmas below); all algorithmic reasoning is
done on the pure versions. -/

/-- The move loop of `minimax`, with the clock stripped. -/
def minimaxLoopPure {σ : Type} (B : Board σ) (g : σ) (recur : σ → Score)
    (maxi : Bool) : List Move → Score → Move → Score × Move
  | [], hs, nm => (hs, nm)
  | m :: ms, hs, nm =>
    if (if maxi then hs < recur (B.forecast_move g m)
        else recur (B.forecast_move g m) < hs) then
      minimaxLoopPure B g recur maxi ms (recur (B.forecast_move g m)) m
    else
      minimaxLoopPure B g recur maxi ms hs nm

/-- `minimax` with the clock stripped. -/
def minimaxPure {σ : Type} (c : CustomPlayer σ) (B : Board σ) :
    Nat → σ → Bool → Score × Move
  | 0, g, maxi =>
    (c.score g (if maxi then B.active_player g else B.inactive_player g),
      ((-1 : Int), (-1 : Int)))
  | d + 1, g, maxi =>
    minimaxLoopPure B g (fun g' => (minimaxPure c B d g' (!maxi)).1) maxi
      (B.legal_moves_active g) (if maxi then (⊥ : Score) else ⊤)
      ((-1 : Int), (-1 : Int))

/-- The move loop of `alphabeta`, with the clock stripped. -/
def alphabetaLoopPure {σ : Type} (B : Board σ) (g : σ)
    (recur : σ → Score → Score → Score) (maxi : Bool) :
    List Move → Score → Score → Score → Move → Score × Move
  | [], _, _, hs, nm => (hs, nm)
  | m :: ms, alpha, beta, hs, nm =>
    let ps := recur (B.forecast_move g m) alpha beta
    if maxi then
      let hs' := if hs < ps then ps else hs
      let nm' := if hs < ps then m else nm
      let alpha' := max alpha hs'
      if beta ≤ alpha' then (hs', nm')
      else alphabetaLoopPure B g recur maxi ms alpha' beta hs' nm'
    else
      let hs' := if ps < hs then ps else hs
      let nm' := if ps < hs then m else nm
      let beta' := min beta hs'
      if beta' ≤ alpha then (hs', nm')
      else alphabetaLoopPure B g recur maxi ms alpha beta' hs' nm'

/-- `alphabeta` with the clock stripped. -/
def alphabetaPure {σ : Type} (c : CustomPlayer σ) (B : Board σ) :
    Nat → σ → Score → Score → Bool → Score × Move
  | 0, g, _, _, maxi =>
    (c.score g (if maxi then B.active_player g else B.inactive_player g),
      ((-1 : Int), (-1 : Int)))
  | d + 1, g, alpha, beta, maxi =>
    alphabetaLoopPure B g (fun g' a b => (alphabetaPure c B d g' a b (!maxi)).1)
      maxi (B.legal_moves_active g) alpha beta
      (if maxi then (⊥ : Score) else ⊤) ((-1 : Int), (-1 : Int))

/-- Running maximum of child values over a list of moves. -/
def maxFold {σ : Type} (B : Board σ) (g : σ) (v : σ → Score) :
    List Move → Score → Score
  | [], a => a
  | m :: ms, a => maxFold B g v ms (max a (v (B.forecast_move g m)))

/-- Running minimum of child values over a list of moves. -/
def minFold {σ : Type} (B : Board σ) (g : σ) (v : σ → Score) :
    List Move → Score → Score
  | [], a => a
  | m :: ms, a => minFold B g v ms (min a (v (B.forecast_move g m)))

/-- The classical fail-soft guarantee relating an alpha-beta result `r`
over the window `(a, b)` to the corresponding minimax value `w`: a result
at or below `a` is an upper bound on `w`, a result at or above `b` is a
lower bound on `w`, and a result strictly inside the window equals `w`. -/
def failSoftTriple (r a b w : Score) : Prop :=
  (r ≤ a → w ≤ r) ∧ (b ≤ r → r ≤ w) ∧ (a < r → r < b → r = w)

/-! Bridge lemmas: when every probe reading is at or above the margin the
clocked search functions succeed and compute the pure values. -/

theorem minimaxLoop_ok {σ : Type} (B : Board σ) (g : σ)
    (recur : σ → Nat → Except Timeout (Score × Nat)) (vrec : σ → Score)
    (maxi : Bool)
    (hrec : ∀ g' t, ∃ t', recur g' t = .ok (vrec g', t')) :
    ∀ (ms : List Move) (hs : Score) (nm : Move) (t : Nat), ∃ t',
      minimaxLoop B g recur maxi ms hs nm t =
        .ok (minimaxLoopPure B g vrec maxi ms hs nm, t') := by
  intro ms
  induction ms with
  | nil => intro hs nm t; exact ⟨t, rfl⟩
  | cons m ms ih =>
    intro hs nm t
    obtain ⟨u, hu⟩ := hrec (B.forecast_move g m) t
    simp only [minimaxLoop, minimaxLoopPure, hu]
    by_cases hcond : (if maxi then hs < vrec (B.forecast_move g m)
        else vrec (B.forecast_move g m) < hs)
    · simp only [if_pos hcond]; exact ih _ _ u
    · simp only [if_neg hcond]; exact ih _ _ u

theorem minimax_ok {σ : Type} (c : CustomPlayer σ) (B : Board σ)
    (probe : Nat → Int) (H : ∀ u, ¬ probe u < c.TIMER_THRESHOLD) :
    ∀ (d : Nat) (g : σ) (maxi : Bool) (t : Nat), ∃ t',
      minimax c B probe d g maxi t = .ok (minimaxPure c B d g maxi, t') := by
  intro d
  induction d with
  | zero => intro g maxi t; exact ⟨t + 1, by simp [minimax, minimaxPure, H t]⟩
  | succ d ih =>
    intro g maxi t
    simp only [minimax, minimaxPure, if_neg (H t)]
    exact minimaxLoop_ok B g _ _ maxi
      (fun g' t' => by
        obtain ⟨u, hu⟩ := ih g' (!maxi) t'
        exact ⟨u, by simp [hu, Except.map]⟩) _ _ _ (t + 1)

theorem alphabetaLoop_ok {σ : Type} (B : Board σ) (g : σ)
    (recur : σ → Score → Score → Nat → Except Timeout (Score × Nat))
    (vrec : σ → Score → Score → Score) (maxi : Bool)
    (hrec : ∀ g' a b t, ∃ t', recur g' a b t = .ok (vrec g' a b, t')) :
    ∀ (ms : List Move) (alpha beta hs : Score) (nm : Move) (t : Nat), ∃ t',
      alphabetaLoop B g recur maxi ms alpha beta hs nm t =
        .ok (alphabetaLoopPure B g vrec maxi ms alpha beta hs nm, t') := by
  intro ms
  induction ms with
  | nil => intro alpha beta hs nm t; exact ⟨t, rfl⟩
  | cons m ms ih =>
    intro alpha beta hs nm t
    obtain ⟨u, hu⟩ := hrec (B.forecast_move g m) alpha beta t
    cases maxi with
    | true =>
      by_cases h1 : hs < vrec (B.forecast_move g m) alpha beta
      · by_cases h2 : beta ≤ max alpha (vrec (B.forecast_move g m) alpha beta)
        · exact ⟨u, by simp [alphabetaLoop, alphabetaLoopPure, hu, h1, h2]⟩
        · simpa [alphabetaLoop, alphabetaLoopPure, hu, h1, h2] using ih _ _ _ _ u
      · by_cases h2 : beta ≤ max alpha hs
        · exact ⟨u, by simp [alphabetaLoop, alphabetaLoopPure, hu, h1, h2]⟩
        · simpa [alphabetaLoop, alphabetaLoopPure, hu, h1, h2] using ih _ _ _ _ u
    | false =>
      by_cases h1 : vrec (B.forecast_move g m) alpha beta < hs
      · by_cases h2 : min beta (vrec (B.forecast_move g m) alpha beta) ≤ alpha
        · exact ⟨u, by simp [alphabetaLoop, alphabetaLoopPure, hu, h1, h2]⟩
        · simpa [alphabetaLoop, alphabetaLoopPure, hu, h1, h2] using ih _ _ _ _ u
      · by_cases h2 : min beta hs ≤ alpha
        · exact ⟨u, by simp [alphabetaLoop, alphabetaLoopPure, hu, h1, h2]⟩
        · simpa [alphabetaLoop, alphabetaLoopPure, hu, h1, h2] using ih _ _ _ _ u

theorem alphabeta_ok {σ : Type} (c : CustomPlayer σ) (B : Board σ)
    (probe : Nat → Int) (H : ∀ u, ¬ probe u < c.TIMER_THRESHOLD) :
    ∀ (d : Nat) (g : σ) (alpha beta : Score) (maxi : Bool) (t : Nat), ∃ t',
      alphabeta c B probe d g alpha beta maxi t =
        .ok (alphabetaPure c B d g alpha beta maxi, t') := by
  intro d
  induction d with
  | zero =>
    intro g alpha beta maxi t
    exact ⟨t + 1, by simp [alphabeta, alphabetaPure, H t]⟩
  | succ d ih =>
    intro g alpha beta maxi t
    simp only [alphabeta, alphabetaPure, if_neg (H t)]
    exact alphabetaLoop_ok B g _ _ maxi
      (fun g' a b t' => by
        obtain ⟨u, hu⟩ := ih g' a b (!maxi) t'
        exact ⟨u, by simp [hu, Except.map]⟩) _ _ _ _ _ (t + 1)

/-! Elementary facts about the running maximum and minimum folds and
about the pure loops. -/

theorem maxFold_init_le {σ : Type} (B : Board σ) (g : σ) (v : σ → Score) :
    ∀ (ms : List Move) (a : Score), a ≤ maxFold B g v ms a := by
  intro ms
  induction ms with
  | nil => intro a; exact le_rfl
  | cons m ms ih =>
    intro a
    exact le_trans (le_max_left _ _) (ih (max a (v (B.forecast_move g m))))

theorem minFold_le_init {σ : Type} (B : Board σ) (g : σ) (v : σ → Score) :
    ∀ (ms : List Move) (a : Score), minFold B g v ms a ≤ a := by
  intro ms
  induction ms with
  | nil => intro a; exact le_rfl
  | cons m ms ih =>
    intro a
    exact le_trans (ih (min a (v (B.forecast_move g m)))) (min_le_left _ _)

theorem maxFold_mono {σ : Type} (B : Board σ) (g : σ) (v : σ → Score) :
    ∀ (ms : List Move) (a b : Score), a ≤ b →
      maxFold B g v ms a ≤ maxFold B g v ms b := by
  intro ms
  induction ms with
  | nil => intro a b h; exact h
  | cons m ms ih => intro a b h; exact ih _ _ (max_le_max h le_rfl)

theorem minFold_mono {σ : Type} (B : Board σ) (g : σ) (v : σ → Score) :
    ∀ (ms : List Move) (a b : Score), a ≤ b →
      minFold B g v ms a ≤ minFold B g v ms b := by
  intro ms
  induction ms with
  | nil => intro a b h; exact h
  | cons m ms ih => intro a b h; exact ih _ _ (min_le_min h le_rfl)

theorem maxFold_assoc {σ : Type} (B : Board σ) (g : σ) (v : σ → Score) :
    ∀ (ms : List Move) (a b : Score),
      maxFold B g v ms (max a b) = max a (maxFold B g v ms b) := by
  intro ms
  induction ms with
  | nil => intro a b; rfl
  | cons m ms ih =>
    intro a b
    simp only [maxFold, max_assoc]
    exact ih a _

theorem minFold_assoc {σ : Type} (B : Board σ) (g : σ) (v : σ → Score) :
    ∀ (ms : List Move) (a b : Score),
      minFold B g v ms (min a b) = min a (minFold B g v ms b) := by
  intro ms
  induction ms with
  | nil => intro a b; rfl
  | cons m ms ih =>
    intro a b
    simp only [minFold, min_assoc]
    exact ih a _

theorem maxFold_eq_max {σ : Type} (B : Board σ) (g : σ) (v : σ → Score)
    (ms : List Move) (a : Score) :
    maxFold B g v ms a = max a (maxFold B g v ms ⊥) := by
  have h := maxFold_assoc B g v ms a ⊥
  simpa using h

theorem minFold_eq_min {σ : Type} (B : Board σ) (g : σ) (v : σ → Score)
    (ms : List Move) (a : Score) :
    minFold B g v ms a = min a (minFold B g v ms ⊤) := by
  have h := minFold_assoc B g v ms a ⊤
  simpa using h

theorem minimaxLoopPure_fst_max {σ : Type} (B : Board σ) (g : σ) (v : σ → Score) :
    ∀ (ms : List Move) (hs : Score) (nm : Move),
      (minimaxLoopPure B g v true ms hs nm).1 = maxFold B g v ms hs := by
  intro ms
  induction ms with
  | nil => intro hs nm; rfl
  | cons m ms ih =>
    intro hs nm
    by_cases h : hs < v (B.forecast_move g m)
    · simp only [minimaxLoopPure, maxFold, if_pos h, if_true,
        max_eq_right (le_of_lt h)]
      exact ih _ m
    · simp only [minimaxLoopPure, maxFold, if_neg h, if_true,
        max_eq_left (not_lt.mp h)]
      exact ih _ nm

theorem minimaxLoopPure_fst_min {σ : Type} (B : Board σ) (g : σ) (v : σ → Score) :
    ∀ (ms : List Move) (hs : Score) (nm : Move),
      (minimaxLoopPure B g v false ms hs nm).1 = minFold B g v ms hs := by
  intro ms
  induction ms with
  | nil => intro hs nm; rfl
  | cons m ms ih =>
    intro hs nm
    by_cases h : v (B.forecast_move g m) < hs
    · simp only [minimaxLoopPure, minFold, if_pos h, Bool.false_eq_true, if_false,
        min_eq_right (le_of_lt h)]
      exact ih _ m
    · simp only [minimaxLoopPure, minFold, if_neg h, Bool.false_eq_true, if_false,
        min_eq_left (not_lt.mp h)]
      exact ih _ nm

theorem minimaxLoopPure_top {σ : Type} (B : Board σ) (g : σ) (v : σ → Score) :
    ∀ (ms : List Move) (nm : Move),
      minimaxLoopPure B g v true ms ⊤ nm = (⊤, nm) := by
  intro ms
  induction ms with
  | nil => intro nm; rfl
  | cons m ms ih =>
    intro nm
    simp only [minimaxLoopPure, if_neg (not_top_lt), if_true]
    exact ih nm

theorem alphabetaLoopPure_fst_ge {σ : Type} (B : Board σ) (g : σ)
    (ab : σ → Score → Score → Score) :
    ∀ (ms : List Move) (alpha beta hs : Score) (nm : Move),
      hs ≤ (alphabetaLoopPure B g ab true ms alpha beta hs nm).1 := by
  intro ms
  induction ms with
  | nil => intro alpha beta hs nm; exact le_rfl
  | cons m ms ih =>
    intro alpha beta hs nm
    by_cases h1 : hs < ab (B.forecast_move g m) alpha beta
    · by_cases h2 : beta ≤ max alpha (ab (B.forecast_move g m) alpha beta)
      · simp only [alphabetaLoopPure, if_pos h1, if_pos h2, if_true]
        exact le_of_lt h1
      · simp only [alphabetaLoopPure, if_pos h1, if_neg h2, if_true]
        exact le_trans (le_of_lt h1) (ih _ _ _ m)
    · by_cases h2 : beta ≤ max alpha hs
      · simp only [alphabetaLoopPure, if_pos h2, if_neg h1, if_true]
        exact le_rfl
      · simp only [alphabetaLoopPure, if_neg h2, if_neg h1, if_true]
        exact ih _ _ _ nm

theorem alphabetaLoopPure_fst_le {σ : Type} (B : Board σ) (g : σ)
    (ab : σ → Score → Score → Score) :
    ∀ (ms : List Move) (alpha beta hs : Score) (nm : Move),
      (alphabetaLoopPure B g ab false ms alpha beta hs nm).1 ≤ hs := by
  intro ms
  induction ms with
  | nil => intro alpha beta hs nm; exact le_rfl
  | cons m ms ih =>
    intro alpha beta hs nm
    by_cases h1 : ab (B.forecast_move g m) alpha beta < hs
    · by_cases h2 : min beta (ab (B.forecast_move g m) alpha beta) ≤ alpha
      · simp only [alphabetaLoopPure, if_pos h1, if_pos h2, Bool.false_eq_true,
          if_false]
        exact le_of_lt h1
      · simp only [alphabetaLoopPure, if_pos h1, if_neg h2, Bool.false_eq_true,
          if_false]
        exact le_trans (ih _ _ _ m) (le_of_lt h1)
    · by_cases h2 : min beta hs ≤ alpha
      · simp only [alphabetaLoopPure, if_pos h2, if_neg h1, Bool.false_eq_true,
          if_false]
        exact le_rfl
      · simp only [alphabetaLoopPure, if_neg h2, if_neg h1, Bool.false_eq_true,
          if_false]
        exact ih _ _ _ nm

theorem alphabetaLoopPure_failSoft_max {σ : Type} (B : Board σ) (g : σ)
    (v : σ → Score) (ab : σ → Score → Score → Score)
    (hCP : ∀ g' a b, a < b → failSoftTriple (ab g' a b) a b (v g'))
    (beta : Score) :
    ∀ (ms : List Move) (alpha hs : Score) (nm : Move), hs ≤ alpha → alpha < beta →
      failSoftTriple ((alphabetaLoopPure B g ab true ms alpha beta hs nm).1)
        alpha beta (maxFold B g v ms hs) := by
  intro ms
  induction ms with
  | nil =>
    intro alpha hs nm hha hab
    exact ⟨fun _ => le_rfl, fun _ => le_rfl, fun _ _ => rfl⟩
  | cons m ms ih =>
    intro alpha hs nm hha hab
    obtain ⟨cp1, cp2, cp3⟩ := hCP (B.forecast_move g m) alpha beta hab
    by_cases h1 : hs < ab (B.forecast_move g m) alpha beta
    · by_cases h2 : beta ≤ max alpha (ab (B.forecast_move g m) alpha beta)
      · -- the node prunes right after this child
        simp only [alphabetaLoopPure, if_pos h1, if_pos h2, if_true, maxFold]
        have hbp : beta ≤ ab (B.forecast_move g m) alpha beta := by
          rcases max_choice alpha (ab (B.forecast_move g m) alpha beta) with he | he
          · rw [he] at h2; exact absurd h2 (not_le.mpr hab)
          · rwa [he] at h2
        have hpv : ab (B.forecast_move g m) alpha beta ≤ v (B.forecast_move g m) :=
          cp2 hbp
        refine ⟨fun h => absurd h (not_le.mpr (lt_of_lt_of_le hab hbp)),
          fun _ => ?_, fun _ h' => absurd hbp (not_le.mpr h')⟩
        calc ab (B.forecast_move g m) alpha beta
            ≤ v (B.forecast_move g m) := hpv
          _ ≤ max hs (v (B.forecast_move g m)) := le_max_right _ _
          _ ≤ maxFold B g v ms (max hs (v (B.forecast_move g m))) :=
              maxFold_init_le B g v ms _
      · -- the child improved the running best and the loop continues
        simp only [alphabetaLoopPure, if_pos h1, if_neg h2, if_true, maxFold]
        have hab' : max alpha (ab (B.forecast_move g m) alpha beta) < beta :=
          not_le.mp h2
        have IH := ih (max alpha (ab (B.forecast_move g m) alpha beta))
          (ab (B.forecast_move g m) alpha beta) m (le_max_right _ _) hab'
        rcases le_or_lt (ab (B.forecast_move g m) alpha beta) alpha with hpa | hap
        · -- fail-low child: its value is only an upper bound
          rw [max_eq_left hpa] at IH ⊢
          obtain ⟨i1, i2, i3⟩ := IH
          have hv1 : v (B.forecast_move g m) ≤ ab (B.forecast_move g m) alpha beta :=
            cp1 hpa
          have hseed : max hs (v (B.forecast_move g m)) ≤
              ab (B.forecast_move g m) alpha beta := max_le (le_of_lt h1) hv1
          have hwle : maxFold B g v ms (max hs (v (B.forecast_move g m))) ≤
              maxFold B g v ms (ab (B.forecast_move g m) alpha beta) :=
            maxFold_mono B g v ms _ _ hseed
          refine ⟨fun h => le_trans hwle (i1 h), fun h => ?_, fun h h' => ?_⟩
          · have hr := i2 h
            rw [maxFold_eq_max] at hr
            have hps_lt : ab (B.forecast_move g m) alpha beta <
                (alphabetaLoopPure B g ab true ms alpha beta
                  (ab (B.forecast_move g m) alpha beta) m).1 :=
              lt_of_le_of_lt hpa (lt_of_lt_of_le hab h)
            have hrP : (alphabetaLoopPure B g ab true ms alpha beta
                (ab (B.forecast_move g m) alpha beta) m).1 ≤
                maxFold B g v ms ⊥ := by
              rcases max_choice (ab (B.forecast_move g m) alpha beta)
                (maxFold B g v ms ⊥) with he | he
              · rw [he] at hr; exact absurd hps_lt (not_lt.mpr hr)
              · rwa [he] at hr
            calc (alphabetaLoopPure B g ab true ms alpha beta
                  (ab (B.forecast_move g m) alpha beta) m).1
                ≤ maxFold B g v ms ⊥ := hrP
              _ ≤ max (max hs (v (B.forecast_move g m))) (maxFold B g v ms ⊥) :=
                  le_max_right _ _
              _ = maxFold B g v ms (max hs (v (B.forecast_move g m))) :=
                  (maxFold_eq_max B g v ms _).symm
          · have hreq := i3 h h'
            rw [maxFold_eq_max] at hreq
            have hps_lt : ab (B.forecast_move g m) alpha beta <
                (alphabetaLoopPure B g ab true ms alpha beta
                  (ab (B.forecast_move g m) alpha beta) m).1 :=
              lt_of_le_of_lt hpa h
            have hrP : (alphabetaLoopPure B g ab true ms alpha beta
                (ab (B.forecast_move g m) alpha beta) m).1 =
                maxFold B g v ms ⊥ := by
              rcases max_choice (ab (B.forecast_move g m) alpha beta)
                (maxFold B g v ms ⊥) with he | he
              · rw [he] at hreq
                exact absurd (hreq ▸ hps_lt) (lt_irrefl _)
              · rwa [he] at hreq
            have hlt : max hs (v (B.forecast_move g m)) < maxFold B g v ms ⊥ := by
              rw [← hrP]
              exact lt_of_le_of_lt (le_trans hseed hpa) h
            rw [maxFold_eq_max B g v ms (max hs (v (B.forecast_move g m))),
              max_eq_right (le_of_lt hlt)]
            exact hrP
        · -- child strictly inside the window: its value is exact
          have hps_lt_beta : ab (B.forecast_move g m) alpha beta < beta :=
            lt_of_le_of_lt (le_max_right alpha _) hab'
          have hv1 : ab (B.forecast_move g m) alpha beta = v (B.forecast_move g m) :=
            cp3 hap hps_lt_beta
          rw [max_eq_right (le_of_lt hap)] at IH ⊢
          obtain ⟨i1, i2, i3⟩ := IH
          have hge : ab (B.forecast_move g m) alpha beta ≤
              (alphabetaLoopPure B g ab true ms
                (ab (B.forecast_move g m) alpha beta) beta
                (ab (B.forecast_move g m) alpha beta) m).1 :=
            alphabetaLoopPure_fst_ge B g ab ms _ beta _ m
          have hw : max hs (v (B.forecast_move g m)) =
              ab (B.forecast_move g m) alpha beta := by
            rw [← hv1]
            exact max_eq_right (le_of_lt h1)
          rw [hw]
          refine ⟨fun h => absurd (lt_of_lt_of_le hap hge) (not_lt.mpr h),
            fun h => i2 h, fun h h' => ?_⟩
          rcases lt_or_le (ab (B.forecast_move g m) alpha beta)
            ((alphabetaLoopPure B g ab true ms
              (ab (B.forecast_move g m) alpha beta) beta
              (ab (B.forecast_move g m) alpha beta) m).1) with hlt | hle
          · exact i3 hlt h'
          · have hreq : (alphabetaLoopPure B g ab true ms
                (ab (B.forecast_move g m) alpha beta) beta
                (ab (B.forecast_move g m) alpha beta) m).1 =
                ab (B.forecast_move g m) alpha beta := le_antisymm hle hge
            have h5 := i1 (le_of_eq hreq)
            refine le_antisymm ?_ h5
            calc (alphabetaLoopPure B g ab true ms
                  (ab (B.forecast_move g m) alpha beta) beta
                  (ab (B.forecast_move g m) alpha beta) m).1
                = ab (B.forecast_move g m) alpha beta := hreq
              _ ≤ maxFold B g v ms (ab (B.forecast_move g m) alpha beta) :=
                  maxFold_init_le B g v ms _
    · -- the child did not improve the running best
      have hps' : ab (B.forecast_move g m) alpha beta ≤ hs := not_lt.mp h1
      have h2 : ¬ beta ≤ max alpha hs := by
        rw [max_eq_left hha]; exact not_le.mpr hab
      simp only [alphabetaLoopPure, if_neg h1, if_neg h2, if_true, maxFold]
      have hv1 : v (B.forecast_move g m) ≤ ab (B.forecast_move g m) alpha beta :=
        cp1 (le_trans hps' hha)
      have hw : max hs (v (B.forecast_move g m)) = hs :=
        max_eq_left (le_trans hv1 hps')
      rw [hw, max_eq_left hha]
      exact ih alpha hs nm hha hab

theorem alphabetaLoopPure_failSoft_min {σ : Type} (B : Board σ) (g : σ)
    (v : σ → Score) (ab : σ → Score → Score → Score)
    (hCP : ∀ g' a b, a < b → failSoftTriple (ab g' a b) a b (v g'))
    (alpha : Score) :
    ∀ (ms : List Move) (beta hs : Score) (nm : Move), beta ≤ hs → alpha < beta →
      failSoftTriple ((alphabetaLoopPure B g ab false ms alpha beta hs nm).1)
        alpha beta (minFold B g v ms hs) := by
  intro ms
  induction ms with
  | nil =>
    intro beta hs nm hbh hab
    exact ⟨fun _ => le_rfl, fun _ => le_rfl, fun _ _ => rfl⟩
  | cons m ms ih =>
    intro beta hs nm hbh hab
    obtain ⟨cp1, cp2, cp3⟩ := hCP (B.forecast_move g m) alpha beta hab
    by_cases h1 : ab (B.forecast_move g m) alpha beta < hs
    · by_cases h2 : min beta (ab (B.forecast_move g m) alpha beta) ≤ alpha
      · -- the node prunes right after this child
        simp only [alphabetaLoopPure, if_pos h1, if_pos h2, Bool.false_eq_true,
          if_false, minFold]
        have hpa : ab (B.forecast_move g m) alpha beta ≤ alpha := by
          rcases min_choice beta (ab (B.forecast_move g m) alpha beta) with he | he
          · rw [he] at h2; exact absurd h2 (not_le.mpr hab)
          · rwa [he] at h2
        have hvp : v (B.forecast_move g m) ≤ ab (B.forecast_move g m) alpha beta :=
          cp1 hpa
        refine ⟨fun _ => ?_,
          fun h => absurd h (not_le.mpr (lt_of_le_of_lt hpa hab)),
          fun h _ => absurd hpa (not_le.mpr h)⟩
        calc minFold B g v ms (min hs (v (B.forecast_move g m)))
            ≤ min hs (v (B.forecast_move g m)) := minFold_le_init B g v ms _
          _ ≤ v (B.forecast_move g m) := min_le_right _ _
          _ ≤ ab (B.forecast_move g m) alpha beta := hvp
      · -- the child improved the running best and the loop continues
        simp only [alphabetaLoopPure, if_pos h1, if_neg h2, Bool.false_eq_true,
          if_false, minFold]
        have hab' : alpha < min beta (ab (B.forecast_move g m) alpha beta) :=
          not_le.mp h2
        have IH := ih (min beta (ab (B.forecast_move g m) alpha beta))
          (ab (B.forecast_move g m) alpha beta) m (min_le_right _ _) hab'
        rcases le_or_lt beta (ab (B.forecast_move g m) alpha beta) with hbp | hpb
        · -- fail-high child: its value is only a lower bound
          rw [min_eq_left hbp] at IH ⊢
          obtain ⟨i1, i2, i3⟩ := IH
          have hv1 : ab (B.forecast_move g m) alpha beta ≤ v (B.forecast_move g m) :=
            cp2 hbp
          have hseed : ab (B.forecast_move g m) alpha beta ≤
              min hs (v (B.forecast_move g m)) := le_min (le_of_lt h1) hv1
          have hwge : minFold B g v ms (ab (B.forecast_move g m) alpha beta) ≤
              minFold B g v ms (min hs (v (B.forecast_move g m))) :=
            minFold_mono B g v ms _ _ hseed
          refine ⟨fun h => ?_, fun h => le_trans (i2 h) hwge, fun h h' => ?_⟩
          · have hr := i1 h
            rw [minFold_eq_min] at hr
            have hps_gt : (alphabetaLoopPure B g ab false ms alpha beta
                (ab (B.forecast_move g m) alpha beta) m).1 <
                ab (B.forecast_move g m) alpha beta :=
              lt_of_le_of_lt h (lt_of_lt_of_le hab hbp)
            have hrQ : minFold B g v ms ⊤ ≤
                (alphabetaLoopPure B g ab false ms alpha beta
                  (ab (B.forecast_move g m) alpha beta) m).1 := by
              rcases min_choice (ab (B.forecast_move g m) alpha beta)
                (minFold B g v ms ⊤) with he | he
              · rw [he] at hr; exact absurd hps_gt (not_lt.mpr hr)
              · rwa [he] at hr
            calc minFold B g v ms (min hs (v (B.forecast_move g m)))
                = min (min hs (v (B.forecast_move g m))) (minFold B g v ms ⊤) :=
                  minFold_eq_min B g v ms _
              _ ≤ minFold B g v ms ⊤ := min_le_right _ _
              _ ≤ (alphabetaLoopPure B g ab false ms alpha beta
                  (ab (B.forecast_move g m) alpha beta) m).1 := hrQ
          · have hreq := i3 h h'
            rw [minFold_eq_min] at hreq
            have hps_gt : (alphabetaLoopPure B g ab false ms alpha beta
                (ab (B.forecast_move g m) alpha beta) m).1 <
                ab (B.forecast_move g m) alpha beta := lt_of_lt_of_le h' hbp
            have hrQ : (alphabetaLoopPure B g ab false ms alpha beta
                (ab (B.forecast_move g m) alpha beta) m).1 =
                minFold B g v ms ⊤ := by
              rcases min_choice (ab (B.forecast_move g m) alpha beta)
                (minFold B g v ms ⊤) with he | he
              · rw [he] at hreq
                exact absurd (hreq ▸ hps_gt) (lt_irrefl _)
              · rwa [he] at hreq
            have hgt : minFold B g v ms ⊤ < min hs (v (B.forecast_move g m)) := by
              rw [← hrQ]
              exact lt_of_lt_of_le h' (le_trans hbp hseed)
            rw [minFold_eq_min B g v ms (min hs (v (B.forecast_move g m))),
              min_eq_right (le_of_lt hgt)]
            exact hrQ
        · -- child strictly inside the window: its value is exact
          have hap : alpha < ab (B.forecast_move g m) alpha beta :=
            lt_of_lt_of_le hab' (min_le_right beta _)
          have hv1 : ab (B.forecast_move g m) alpha beta = v (B.forecast_move g m) :=
            cp3 hap hpb
          rw [min_eq_right (le_of_lt hpb)] at IH ⊢
          obtain ⟨i1, i2, i3⟩ := IH
          have hle : (alphabetaLoopPure B g ab false ms alpha
              (ab (B.forecast_move g m) alpha beta)
              (ab (B.forecast_move g m) alpha beta) m).1 ≤
              ab (B.forecast_move g m) alpha beta :=
            alphabetaLoopPure_fst_le B g ab ms alpha _ _ m
          have hw : min hs (v (B.forecast_move g m)) =
              ab (B.forecast_move g m) alpha beta := by
            rw [← hv1]
            exact min_eq_right (le_of_lt h1)
          rw [hw]
          refine ⟨fun h => i1 h,
            fun h => absurd (lt_of_le_of_lt hle hpb) (not_lt.mpr h),
            fun h h' => ?_⟩
          rcases lt_or_le ((alphabetaLoopPure B g ab false ms alpha
              (ab (B.forecast_move g m) alpha beta)
              (ab (B.forecast_move g m) alpha beta) m).1)
            (ab (B.forecast_move g m) alpha beta) with hlt | hge2
          · exact i3 h hlt
          · have hreq : (alphabetaLoopPure B g ab false ms alpha
                (ab (B.forecast_move g m) alpha beta)
                (ab (B.forecast_move g m) alpha beta) m).1 =
                ab (B.forecast_move g m) alpha beta := le_antisymm hle hge2
            have h5 := i2 (le_of_eq hreq.symm)
            refine le_antisymm h5 ?_
            calc minFold B g v ms (ab (B.forecast_move g m) alpha beta)
                ≤ ab (B.forecast_move g m) alpha beta := minFold_le_init B g v ms _
              _ = (alphabetaLoopPure B g ab false ms alpha
                  (ab (B.forecast_move g m) alpha beta)
                  (ab (B.forecast_move g m) alpha beta) m).1 := hreq.symm
    · -- the child did not improve the running best
      have hps' : hs ≤ ab (B.forecast_move g m) alpha beta := not_lt.mp h1
      have h2 : ¬ min beta hs ≤ alpha := by
        rw [min_eq_left hbh]; exact not_le.mpr hab
      simp only [alphabetaLoopPure, if_neg h1, if_neg h2, Bool.false_eq_true,
        if_false, minFold]
      have hv1 : ab (B.forecast_move g m) alpha beta ≤ v (B.forecast_move g m) :=
        cp2 (le_trans hbh hps')
      have hw : min hs (v (B.forecast_move g m)) = hs :=
        min_eq_left (le_trans hps' hv1)
      rw [hw, min_eq_left hbh]
      exact ih beta hs nm hbh hab

theorem alphabetaPure_failSoft {σ : Type} (c : CustomPlayer σ) (B : Board σ) :
    ∀ (d : Nat) (g : σ) (maxi : Bool) (alpha beta : Score), alpha < beta →
      failSoftTriple ((alphabetaPure c B d g alpha beta maxi).1) alpha beta
        ((minimaxPure c B d g maxi).1) := by
  intro d
  induction d with
  | zero =>
    intro g maxi alpha beta _
    exact ⟨fun _ => le_of_eq rfl, fun _ => le_of_eq rfl, fun _ _ => rfl⟩
  | succ d ih =>
    intro g maxi alpha beta hab
    cases maxi with
    | true =>
      have hmm : (minimaxPure c B (d + 1) g true).1 =
          maxFold B g (fun g' => (minimaxPure c B d g' (!true)).1)
            (B.legal_moves_active g) ⊥ := by
        simp only [minimaxPure]
        exact minimaxLoopPure_fst_max B g _ _ _ _
      rw [hmm]
      simp only [alphabetaPure]
      exact alphabetaLoopPure_failSoft_max B g _ _
        (fun g' a b h => ih g' (!true) a b h) beta _ alpha ⊥ _ bot_le hab
    | false =>
      have hmm : (minimaxPure c B (d + 1) g false).1 =
          minFold B g (fun g' => (minimaxPure c B d g' (!false)).1)
            (B.legal_moves_active g) ⊤ := by
        simp only [minimaxPure]
        exact minimaxLoopPure_fst_min B g _ _ _ _
      rw [hmm]
      simp only [alphabetaPure]
      exact alphabetaLoopPure_failSoft_min B g _ _
        (fun g' a b h => ih g' (!false) a b h) alpha _ beta ⊤ _ le_top hab

theorem alphabetaLoopPure_root_eq {σ : Type} (B : Board σ) (g : σ)
    (v : σ → Score) (ab : σ → Score → Score → Score)
    (hCP : ∀ g' a b, a < b → failSoftTriple (ab g' a b) a b (v g')) :
    ∀ (ms : List Move) (hs : Score) (nm : Move), hs < ⊤ →
      alphabetaLoopPure B g ab true ms hs ⊤ hs nm =
        minimaxLoopPure B g v true ms hs nm := by
  intro ms
  induction ms with
  | nil => intro hs nm _; rfl
  | cons m ms ih =>
    intro hs nm hlt
    obtain ⟨cp1, cp2, cp3⟩ := hCP (B.forecast_move g m) hs ⊤ hlt
    by_cases h1 : hs < ab (B.forecast_move g m) hs ⊤
    · rcases lt_or_le (ab (B.forecast_move g m) hs ⊤) ⊤ with hps_top | htop
      · -- strictly inside the window: the child value is exact
        have hv1 : ab (B.forecast_move g m) hs ⊤ = v (B.forecast_move g m) :=
          cp3 h1 hps_top
        have h2 : ¬ (⊤ : Score) ≤ max hs (ab (B.forecast_move g m) hs ⊤) := by
          rw [max_eq_right (le_of_lt h1)]
          exact not_le.mpr hps_top
        have hmm1 : hs < v (B.forecast_move g m) := hv1 ▸ h1
        simp only [alphabetaLoopPure, minimaxLoopPure, if_pos h1, if_pos hmm1,
          if_neg h2, if_true]
        rw [max_eq_right (le_of_lt h1), ← hv1]
        exact ih (ab (B.forecast_move g m) hs ⊤) m hps_top
      · -- the child proves a certain win and the loop prunes
        have hps_eq : ab (B.forecast_move g m) hs ⊤ = ⊤ := top_le_iff.mp htop
        have hv1' : v (B.forecast_move g m) = ⊤ :=
          top_le_iff.mp (le_trans htop (cp2 htop))
        have h2 : (⊤ : Score) ≤ max hs (ab (B.forecast_move g m) hs ⊤) :=
          le_trans htop (le_max_right _ _)
        have hmm1 : hs < v (B.forecast_move g m) := by rw [hv1']; exact hlt
        simp only [alphabetaLoopPure, minimaxLoopPure, if_pos h1, if_pos hmm1,
          if_pos h2, if_true]
        rw [hps_eq, hv1', minimaxLoopPure_top]
    · -- the child does not improve the running best on either side
      have hps' : ab (B.forecast_move g m) hs ⊤ ≤ hs := not_lt.mp h1
      have hv1 : v (B.forecast_move g m) ≤ ab (B.forecast_move g m) hs ⊤ :=
        cp1 hps'
      have hmm1 : ¬ hs < v (B.forecast_move g m) :=
        not_lt.mpr (le_trans hv1 hps')
      have h2 : ¬ (⊤ : Score) ≤ max hs hs := by
        rw [max_self]; exact not_le.mpr hlt
      simp only [alphabetaLoopPure, minimaxLoopPure, if_neg h1, if_neg hmm1,
        if_neg h2, if_true]
      rw [max_self]
      exact ih hs nm hlt

theorem alphabetaPure_eq_minimaxPure {σ : Type} (c : CustomPlayer σ) (B : Board σ) :
    ∀ (d : Nat) (g : σ),
      alphabetaPure c B d g ⊥ ⊤ true = minimaxPure c B d g true := by
  intro d g
  cases d with
  | zero => rfl
  | succ d =>
    simp only [alphabetaPure, minimaxPure]
    exact alphabetaLoopPure_root_eq B g _ _
      (fun g' a b h => alphabetaPure_failSoft c B d g' (!true) a b h)
      _ _ _ bot_lt_top

/-- Claim C2: when the time probe never reads strictly below the margin,
`alphabeta` launched with the full window (negative extreme, positive
extreme) and `minimax` at the same position and depth both complete and
return the same score and even the same move (proved unconditionally, so
in particular they agree whenever no two moves are score-tied). -/
theorem alphabeta_agrees_with_minimax {σ : Type} (c : CustomPlayer σ)
    (B : Board σ) (probe : Nat → Int)
    (H : ∀ u, ¬ probe u < c.TIMER_THRESHOLD) (d : Nat) (g : σ) (t₁ t₂ : Nat) :
    ∃ s mv t₁' t₂', minimax c B probe d g true t₁ = .ok ((s, mv), t₁') ∧
      alphabeta c B probe d g ⊥ ⊤ true t₂ = .ok ((s, mv), t₂') := by
  obtain ⟨u₁, h₁⟩ := minimax_ok c B probe H d g true t₁
  obtain ⟨u₂, h₂⟩ := alphabeta_ok c B probe H d g ⊥ ⊤ true t₂
  rw [alphabetaPure_eq_minimaxPure] at h₂
  refine ⟨(minimaxPure c B d g true).1, (minimaxPure c B d g true).2, u₁, u₂,
    ?_, ?_⟩
  · simpa using h₁
  · simpa using h₂

/-- Witness for C2 on the demo board at depth 2 with an ample probe. -/
theorem alphabeta_agrees_with_minimax_witness :
    ∃ s mv t₁' t₂',
      minimax cfgIterMM DemoBoard probeHigh 2 0 true 0 = .ok ((s, mv), t₁') ∧
      alphabeta cfgIterMM DemoBoard probeHigh 2 0 ⊥ ⊤ true 0 =
        .ok ((s, mv), t₂') :=
  alphabeta_agrees_with_minimax cfgIterMM DemoBoard probeHigh
    (fun u => by norm_num [probeHigh, cfgIterMM]) 2 0 0 0

/-- Claim C1 (code-bug evidence): at state 0 of the demo board the depth-1
iteration completes without aborting and returns the positive-extreme
score together with the winning move `(0, 1)`, yet `get_move` breaks out
of the deepening loop before adopting that move and returns the stale
initial move `(0, 0)` instead of the move produced by that iteration. -/
theorem get_move_drops_forced_win :
    minimax cfgIterMM DemoBoard probeHigh 1 0 true 0 =
      .ok (((⊤ : Score), ((0 : Int), (1 : Int))), 3) ∧
    get_move cfgIterMM DemoBoard probeHigh 0 [(0, 0), (0, 1)] =
      ((0 : Int), (0 : Int)) ∧
    ((0 : Int), (0 : Int)) ≠ ((0 : Int), (1 : Int)) :=
  ⟨rfl, rfl, by decide⟩

/-- Claim C3 (amended): with iterative deepening enabled the depth
schedule is `1, 2, …, move_count + width * height - 2` (not
`width * height - move_count`); its first entry is 1 and its largest
entry is `move_count + width * height - 2`. -/
theorem iteration_candidate_schedule {σ : Type} (c : CustomPlayer σ)
    (B : Board σ) (g : σ) (hit : c.iterative = true)
    (h3 : 3 ≤ B.move_count g + B.width g * B.height g) :
    iteration_candidate c B g =
      List.range' 1 (B.move_count g + B.width g * B.height g - 2) ∧
    (iteration_candidate c B g).head? = some 1 ∧
    (iteration_candidate c B g).getLast? =
      some (B.move_count g + B.width g * B.height g - 2) := by
  have hcand : iteration_candidate c B g =
      List.range' 1 (B.move_count g + B.width g * B.height g - 2) := by
    simp [iteration_candidate, hit]
  have hne : B.move_count g + B.width g * B.height g - 2 ≠ 0 := by omega
  refine ⟨hcand, ?_, ?_⟩
  · rw [hcand, List.head?_range', if_neg hne]
  · rw [hcand, List.getLast?_range', if_neg hne]
    congr 1
    omega

/-- Witness for C3 (amended) on the 3×3 demo board with 4 moves played:
the schedule is `[1, …, 11]`. -/
theorem iteration_candidate_schedule_witness :
    iteration_candidate cfgIter3 DemoBoard3 0 = List.range' 1 11 ∧
    (iteration_candidate cfgIter3 DemoBoard3 0).head? = some 1 ∧
    (iteration_candidate cfgIter3 DemoBoard3 0).getLast? = some 11 := by
  have h := iteration_candidate_schedule cfgIter3 DemoBoard3 0 rfl
    (by decide)
  simpa using h

/-- Counterexample for C3 as stated: on the 3×3 board with 4 moves
already played the largest scheduled depth is 11, not
`width * height - move_count = 5`, although iterative deepening is
enabled and the position has a legal move. -/
theorem iteration_candidate_not_cells_minus_moves :
    cfgIter3.iterative = true ∧
    DemoBoard3.legal_moves_active 0 = [(0, 0), (0, 1)] ∧
    (iteration_candidate cfgIter3 DemoBoard3 0).getLast? = some 11 ∧
    DemoBoard3.width 0 * DemoBoard3.height 0 - DemoBoard3.move_count 0 = 5 ∧
    (11 : Nat) ≠ 5 := by
  refine ⟨rfl, rfl, by decide, rfl, by decide⟩

/-- Claim C4 (amended): at depth at least 1 with an empty legal-move set
both cores return the pre-loop extreme seed unmodified, paired with the
no-move sentinel: the negative extreme at a maximizing ply and the
positive extreme at a minimizing ply (which, because scores are always
taken from the maximizing player's perspective, encodes that the stuck
mover has lost). -/
theorem search_empty_moves_returns_seed {σ : Type} (c : CustomPlayer σ)
    (B : Board σ) (probe : Nat → Int) (g : σ) (d : Nat) (maxi : Bool) (t : Nat)
    (hempty : B.legal_moves_active g = [])
    (htime : ¬ probe t < c.TIMER_THRESHOLD) :
    minimax c B probe (d + 1) g maxi t =
      .ok (((if maxi then (⊥ : Score) else ⊤), ((-1 : Int), (-1 : Int))),
        t + 1) ∧
    ∀ alpha beta, alphabeta c B probe (d + 1) g alpha beta maxi t =
      .ok (((if maxi then (⊥ : Score) else ⊤), ((-1 : Int), (-1 : Int))),
        t + 1) := by
  constructor
  · simp [minimax, htime, hempty, minimaxLoop]
  · intro alpha beta
    simp [alphabeta, htime, hempty, alphabetaLoop]

/-- Witness for C4 (amended) at state 3 of the demo board, a minimizing
ply with no legal moves. -/
theorem search_empty_moves_returns_seed_witness :
    minimax cfgIterMM DemoBoard probeHigh 1 3 false 0 =
      .ok (((⊤ : Score), ((-1 : Int), (-1 : Int))), 1) := by
  have h := (search_empty_moves_returns_seed cfgIterMM DemoBoard probeHigh 3 0
    false 0 rfl (by decide)).1
  simpa using h

/-- Counterexample for C4 as stated: at state 3 the active player has no
legal moves, yet a minimizing ply at depth 1 returns the positive-extreme
sentinel (the unmodified pre-loop seed), in both cores. -/
theorem minimizing_empty_returns_posinf :
    DemoBoard.legal_moves_active 3 = [] ∧
    minimax cfgIterMM DemoBoard probeHigh 1 3 false 0 =
      .ok (((⊤ : Score), ((-1 : Int), (-1 : Int))), 1) ∧
    alphabeta cfgIterMM DemoBoard probeHigh 1 3 ⊥ ⊤ false 0 =
      .ok (((⊤ : Score), ((-1 : Int), (-1 : Int))), 1) :=
  ⟨rfl, rfl, rfl⟩

/-- Claim C5 (amended): every call of either core consults the probe
first and raises `Timeout` exactly when the reading is strictly below the
configured margin: a reading strictly below aborts immediately, and if no
reading is ever strictly below the margin the search completes with a
result (so a reading exactly at the margin does not trigger the abort). -/
theorem timecheck_strict {σ : Type} (c : CustomPlayer σ) (B : Board σ)
    (probe : Nat → Int) (d : Nat) (g : σ) (maxi : Bool) (alpha beta : Score)
    (t : Nat) :
    (probe t < c.TIMER_THRESHOLD →
      minimax c B probe d g maxi t = .error Timeout.mk ∧
      alphabeta c B probe d g alpha beta maxi t = .error Timeout.mk) ∧
    ((∀ u, ¬ probe u < c.TIMER_THRESHOLD) →
      (∃ r t', minimax c B probe d g maxi t = .ok (r, t')) ∧
      (∃ r t', alphabeta c B probe d g alpha beta maxi t = .ok (r, t'))) := by
  constructor
  · intro h
    constructor
    · cases d <;> simp [minimax, h]
    · cases d <;> simp [alphabeta, h]
  · intro H
    obtain ⟨u₁, h₁⟩ := minimax_ok c B probe H d g maxi t
    obtain ⟨u₂, h₂⟩ := alphabeta_ok c B probe H d g alpha beta maxi t
    exact ⟨⟨_, u₁, h₁⟩, ⟨_, u₂, h₂⟩⟩

/-- Witness for C5: an out-of-budget probe aborts immediately, and a
probe pinned exactly at the margin lets the search complete. -/
theorem timecheck_strict_witness :
    minimax cfgIterMM DemoBoard probeLow 1 0 true 0 = .error Timeout.mk ∧
    (∃ r t', minimax cfgIterMM DemoBoard probeEdge 1 0 true 0 = .ok (r, t')) :=
  ⟨((timecheck_strict cfgIterMM DemoBoard probeLow 1 0 true ⊥ ⊤ 0).1
      (by decide)).1,
    ((timecheck_strict cfgIterMM DemoBoard probeEdge 1 0 true ⊥ ⊤ 0).2
      (fun u => by norm_num [probeEdge, cfgIterMM])).1⟩

/-- Counterexample for C5 as stated: a probe reading exactly equal to the
margin does not trigger the abort; both cores run to completion. -/
theorem probe_at_margin_no_abort :
    probeEdge 0 = cfgIterMM.TIMER_THRESHOLD ∧
    minimax cfgIterMM DemoBoard probeEdge 1 0 true 0 =
      .ok (((⊤ : Score), ((0 : Int), (1 : Int))), 3) ∧
    alphabeta cfgIterMM DemoBoard probeEdge 1 0 ⊥ ⊤ true 0 =
      .ok (((⊤ : Score), ((0 : Int), (1 : Int))), 3) :=
  ⟨rfl, rfl, rfl⟩

/-- Claim C6 (amended): with iterative deepening disabled the driver runs
exactly one search, at `search_depth`; if that search completes with a
finite score it returns the move the search produced, but if the score is
either sentinel extreme it keeps the first legal move instead. -/
theorem get_move_fixed_depth {σ : Type} (c : CustomPlayer σ) (B : Board σ)
    (probe : Nat → Int) (g : σ) (m0 : Move) (rest : List Move) (s : Score)
    (mv : Move) (t' : Nat) (hit : c.iterative = false)
    (hcall : searchCall c B probe g c.search_depth 0 = .ok ((s, mv), t')) :
    iteration_candidate c B g = [c.search_depth] ∧
    get_move c B probe g (m0 :: rest) =
      (if s = (⊤ : Score) then m0 else if s = (⊥ : Score) then m0 else mv) := by
  have hcand : iteration_candidate c B g = [c.search_depth] := by
    simp [iteration_candidate, hit]
  refine ⟨hcand, ?_⟩
  simp only [get_move, hcand, driverLoop, hcall]

/-- Witness for C6 (amended): the fixed-depth demo search completes with
the positive-extreme score, so the first legal move is returned. -/
theorem get_move_fixed_depth_witness :
    get_move cfgFixedMM DemoBoard probeHigh 0 [(0, 0), (0, 1)] =
      ((0 : Int), (0 : Int)) := by
  have h := (get_move_fixed_depth cfgFixedMM DemoBoard probeHigh 0
    ((0 : Int), (0 : Int)) [((0 : Int), (1 : Int))] ⊤ ((0 : Int), (1 : Int)) 3
    rfl rfl).2
  simpa using h

/-- Counterexample for C6 as stated: with iterative deepening disabled
the single fixed-depth search completes (no abort) and produces the move
`(0, 1)`, yet `get_move` returns `(0, 0)`. -/
theorem fixed_depth_move_dropped :
    cfgFixedMM.iterative = false ∧
    searchCall cfgFixedMM DemoBoard probeHigh 0 cfgFixedMM.search_depth 0 =
      .ok (((⊤ : Score), ((0 : Int), (1 : Int))), 3) ∧
    get_move cfgFixedMM DemoBoard probeHigh 0 [(0, 0), (0, 1)] =
      ((0 : Int), (0 : Int)) ∧
    ((0 : Int), (0 : Int)) ≠ ((0 : Int), (1 : Int)) :=
  ⟨rfl, rfl, rfl, by decide⟩

/-- Claim C7: if the search of some scheduled depth raises `Timeout`, the
driver loop catches it, discards that iteration, skips every remaining
depth, and returns the `next_move` recorded from previously completed
iterations unchanged (the first legal move if none completed); the
exception never escapes `get_move`. -/
theorem driver_abort_keeps_best {σ : Type} (c : CustomPlayer σ) (B : Board σ)
    (probe : Nat → Int) (g : σ) (d : Nat) (ds : List Nat) (nm : Move) (t : Nat)
    (e : Timeout) (h : searchCall c B probe g d t = .error e) :
    driverLoop c B probe g (d :: ds) nm t = nm := by
  simp [driverLoop, h]

/-- Witness for C7: an exhausted probe aborts the depth-1 search and the
driver returns the recorded move. -/
theorem driver_abort_keeps_best_witness :
    driverLoop cfgIterMM DemoBoard probeLow 0 [1, 2] ((0 : Int), (0 : Int)) 0 =
      ((0 : Int), (0 : Int)) :=
  driver_abort_keeps_best cfgIterMM DemoBoard probeLow 0 1 [2]
    ((0 : Int), (0 : Int)) 0 Timeout.mk rfl

/-- Claim C8: for a position that is not simultaneously a win and a loss
for the same player, `custom_score` returns the negative extreme exactly
on a loss, the positive extreme on a win, and otherwise the difference
between the perspective player's and the opponent's legal-move counts. -/
theorem custom_score_spec {σ : Type} (B : Board σ) (g : σ) (p : Player)
    (h : ¬ (B.is_loser g p = true ∧ B.is_winner g p = true)) :
    (B.is_loser g p = true → custom_score B g p = ⊥) ∧
    (B.is_winner g p = true → custom_score B g p = ⊤) ∧
    (B.is_loser g p = false → B.is_winner g p = false →
      custom_score B g p =
        intScore (((B.get_legal_moves g p).length : Int) -
          ((B.get_legal_moves g (B.get_opponent p)).length : Int))) := by
  refine ⟨fun hl => by simp [custom_score, hl], fun hw => ?_,
    fun hl hw => by simp [custom_score, hl, hw]⟩
  have hl : B.is_loser g p = false := by
    cases hb : B.is_loser g p
    · rfl
    · exact absurd ⟨hb, hw⟩ h
  simp [custom_score, hl, hw]

/-- Witness for C8, the spec's own scenario: three own moves against one
opponent move at a quiet state yields the finite score 2. -/
theorem custom_score_spec_witness :
    custom_score DemoBoard 4 true = intScore 2 := by
  have h := (custom_score_spec DemoBoard 4 true (by decide)).2.2 rfl rfl
  exact h.trans (by rfl)

/-- The move component of a completed `minimaxLoop` run is either the
incoming `next_move` or one of the listed moves. -/
theorem minimaxLoop_move_mem {σ : Type} (B : Board σ) (g : σ)
    (recur : σ → Nat → Except Timeout (Score × Nat)) (maxi : Bool) :
    ∀ (ms : List Move) (hs : Score) (nm : Move) (t : Nat) (s : Score)
      (mv : Move) (t' : Nat),
      minimaxLoop B g recur maxi ms hs nm t = .ok ((s, mv), t') →
      mv = nm ∨ mv ∈ ms := by
  intro ms
  induction ms with
  | nil =>
    intro hs nm t s mv t' h
    simp only [minimaxLoop, Except.ok.injEq, Prod.mk.injEq] at h
    exact Or.inl h.1.2.symm
  | cons m ms ih =>
    intro hs nm t s mv t' h
    cases hrec : recur (B.forecast_move g m) t with
    | error e => simp [minimaxLoop, hrec] at h
    | ok pr =>
      obtain ⟨ps, u⟩ := pr
      simp only [minimaxLoop, hrec] at h
      by_cases hcond : (if maxi then hs < ps else ps < hs)
      · rw [if_pos hcond] at h
        rcases ih _ _ _ _ _ _ h with h' | h'
        · exact Or.inr (h' ▸ List.mem_cons_self m ms)
        · exact Or.inr (List.mem_cons_of_mem m h')
      · rw [if_neg hcond] at h
        rcases ih _ _ _ _ _ _ h with h' | h'
        · exact Or.inl h'
        · exact Or.inr (List.mem_cons_of_mem m h')

/-- The move component of a completed `alphabetaLoop` run is either the
incoming `next_move` or one of the listed moves. -/
theorem alphabetaLoop_move_mem {σ : Type} (B : Board σ) (g : σ)
    (recur : σ → Score → Score → Nat → Except Timeout (Score × Nat)) :
    ∀ (maxi : Bool) (ms : List Move) (alpha beta hs : Score) (nm : Move)
      (t : Nat) (s : Score) (mv : Move) (t' : Nat),
      alphabetaLoop B g recur maxi ms alpha beta hs nm t = .ok ((s, mv), t') →
      mv = nm ∨ mv ∈ ms := by
  intro maxi ms
  induction ms with
  | nil =>
    intro alpha beta hs nm t s mv t' h
    simp only [alphabetaLoop, Except.ok.injEq, Prod.mk.injEq] at h
    exact Or.inl h.1.2.symm
  | cons m ms ih =>
    intro alpha beta hs nm t s mv t' h
    cases hrec : recur (B.forecast_move g m) alpha beta t with
    | error e => simp [alphabetaLoop, hrec] at h
    | ok pr =>
      obtain ⟨ps, u⟩ := pr
      cases maxi with
      | true =>
        simp only [alphabetaLoop, hrec] at h
        by_cases h1 : hs < ps
        · by_cases h2 : beta ≤ max alpha ps
          · simp only [if_pos h1, if_pos h2, if_true, Except.ok.injEq,
              Prod.mk.injEq] at h
            exact Or.inr (h.1.2 ▸ List.mem_cons_self m ms)
          · simp only [if_pos h1, if_neg h2, if_true] at h
            rcases ih _ _ _ _ _ _ _ _ h with h' | h'
            · exact Or.inr (h' ▸ List.mem_cons_self m ms)
            · exact Or.inr (List.mem_cons_of_mem m h')
        · by_cases h2 : beta ≤ max alpha hs
          · simp only [if_neg h1, if_pos h2, if_true, Except.ok.injEq,
              Prod.mk.injEq] at h
            exact Or.inl h.1.2.symm
          · simp only [if_neg h1, if_neg h2, if_true] at h
            rcases ih _ _ _ _ _ _ _ _ h with h' | h'
            · exact Or.inl h'
            · exact Or.inr (List.mem_cons_of_mem m h')
      | false =>
        simp only [alphabetaLoop, Bool.false_eq_true, if_false, hrec] at h
        by_cases h1 : ps < hs
        · by_cases h2 : min beta ps ≤ alpha
          · simp only [if_pos h1, if_pos h2, Except.ok.injEq,
              Prod.mk.injEq] at h
            exact Or.inr (h.1.2 ▸ List.mem_cons_self m ms)
          · simp only [if_pos h1, if_neg h2] at h
            rcases ih _ _ _ _ _ _ _ _ h with h' | h'
            · exact Or.inr (h' ▸ List.mem_cons_self m ms)
            · exact Or.inr (List.mem_cons_of_mem m h')
        · by_cases h2 : min beta hs ≤ alpha
          · simp only [if_neg h1, if_pos h2, Except.ok.injEq,
              Prod.mk.injEq] at h
            exact Or.inl h.1.2.symm
          · simp only [if_neg h1, if_neg h2] at h
            rcases ih _ _ _ _ _ _ _ _ h with h' | h'
            · exact Or.inl h'
            · exact Or.inr (List.mem_cons_of_mem m h')

/-- A completed `minimax` call returns a move of the searched position or
the no-move sentinel. -/
theorem minimax_move_mem {σ : Type} (c : CustomPlayer σ) (B : Board σ)
    (probe : Nat → Int) (d : Nat) (g : σ) (maxi : Bool) (t : Nat) (s : Score)
    (mv : Move) (t' : Nat)
    (h : minimax c B probe d g maxi t = .ok ((s, mv), t')) :
    mv ∈ B.legal_moves_active g ∨ mv = ((-1 : Int), (-1 : Int)) := by
  by_cases hp : probe t < c.TIMER_THRESHOLD
  · cases d <;> simp [minimax, hp] at h
  · cases d with
    | zero =>
      simp only [minimax, if_neg hp, Except.ok.injEq, Prod.mk.injEq] at h
      exact Or.inr h.1.2.symm
    | succ d =>
      simp only [minimax, if_neg hp] at h
      rcases minimaxLoop_move_mem B g _ maxi _ _ _ _ _ _ _ h with h' | h'
      · exact Or.inr h'
      · exact Or.inl h'

/-- A completed `alphabeta` call returns a move of the searched position
or the no-move sentinel. -/
theorem alphabeta_move_mem {σ : Type} (c : CustomPlayer σ) (B : Board σ)
    (probe : Nat → Int) (d : Nat) (g : σ) (alpha beta : Score) (maxi : Bool)
    (t : Nat) (s : Score) (mv : Move) (t' : Nat)
    (h : alphabeta c B probe d g alpha beta maxi t = .ok ((s, mv), t')) :
    mv ∈ B.legal_moves_active g ∨ mv = ((-1 : Int), (-1 : Int)) := by
  by_cases hp : probe t < c.TIMER_THRESHOLD
  · cases d <;> simp [alphabeta, hp] at h
  · cases d with
    | zero =>
      simp only [alphabeta, if_neg hp, Except.ok.injEq, Prod.mk.injEq] at h
      exact Or.inr h.1.2.symm
    | succ d =>
      simp only [alphabeta, if_neg hp] at h
      rcases alphabetaLoop_move_mem B g _ maxi _ _ _ _ _ _ _ _ _ h with h' | h'
      · exact Or.inr h'
      · exact Or.inl h'

/-- A completed dispatched search returns a move of the searched position
or the no-move sentinel. -/
theorem searchCall_move_mem {σ : Type} (c : CustomPlayer σ) (B : Board σ)
    (probe : Nat → Int) (g : σ) (d : Nat) (t : Nat) (s : Score) (mv : Move)
    (t' : Nat) (h : searchCall c B probe g d t = .ok ((s, mv), t')) :
    mv ∈ B.legal_moves_active g ∨ mv = ((-1 : Int), (-1 : Int)) := by
  by_cases hm : c.method = "alphabeta"
  · rw [searchCall, if_pos hm] at h
    exact alphabeta_move_mem c B probe d g ⊥ ⊤ true t s mv t' h
  · rw [searchCall, if_neg hm] at h
    exact minimax_move_mem c B probe d g true t s mv t' h

/-- The driver loop returns its recorded move, a legal move of the root
position, or the no-move sentinel. -/
theorem driverLoop_mem {σ : Type} (c : CustomPlayer σ) (B : Board σ)
    (probe : Nat → Int) (g : σ) :
    ∀ (ds : List Nat) (nm : Move) (t : Nat),
      driverLoop c B probe g ds nm t = nm ∨
      driverLoop c B probe g ds nm t ∈ B.legal_moves_active g ∨
      driverLoop c B probe g ds nm t = ((-1 : Int), (-1 : Int)) := by
  intro ds
  induction ds with
  | nil => intro nm t; exact Or.inl rfl
  | cons d ds ih =>
    intro nm t
    cases hcall : searchCall c B probe g d t with
    | error e => exact Or.inl (by simp [driverLoop, hcall])
    | ok pr =>
      obtain ⟨⟨s, mv⟩, t'⟩ := pr
      by_cases h1 : s = (⊤ : Score)
      · exact Or.inl (by simp [driverLoop, hcall, h1])
      · by_cases h2 : s = (⊥ : Score)
        · have hred : driverLoop c B probe g (d :: ds) nm t =
              driverLoop c B probe g ds nm t' := by
            simp [driverLoop, hcall, h1, h2]
          rw [hred]
          exact ih nm t'
        · have hred : driverLoop c B probe g (d :: ds) nm t =
              driverLoop c B probe g ds mv t' := by
            simp [driverLoop, hcall, h1, h2]
          rw [hred]
          rcases ih mv t' with h' | h'
          · rw [h']
            exact Or.inr (searchCall_move_mem c B probe g d t s mv t' hcall)
          · exact Or.inr h'

/-- Claim C9: when handed the position's own legal-move list, `get_move`
returns one of those moves or the no-move sentinel; on an empty list it
returns the sentinel immediately (by the first equation of `get_move`,
before any search core is consulted). -/
theorem get_move_returns_legal {σ : Type} (c : CustomPlayer σ) (B : Board σ)
    (probe : Nat → Int) (g : σ) (legal_moves : List Move)
    (h : legal_moves = B.legal_moves_active g) :
    (get_move c B probe g legal_moves ∈ legal_moves ∨
      get_move c B probe g legal_moves = ((-1 : Int), (-1 : Int))) ∧
    get_move c B probe g [] = ((-1 : Int), (-1 : Int)) := by
  refine ⟨?_, rfl⟩
  cases legal_moves with
  | nil => exact Or.inr rfl
  | cons m0 rest =>
    show driverLoop c B probe g (iteration_candidate c B g) m0 0 ∈ _ ∨ _
    rcases driverLoop_mem c B probe g (iteration_candidate c B g) m0 0
      with h' | h' | h'
    · rw [h']
      exact Or.inl (List.mem_cons_self _ _)
    · exact Or.inl (h.symm ▸ h')
    · exact Or.inr h'

/-- Witness for C9 at state 0 of the demo board. -/
theorem get_move_returns_legal_witness :
    get_move cfgIterMM DemoBoard probeHigh 0 [(0, 0), (0, 1)] ∈
        ([(0, 0), (0, 1)] : List Move) ∨
      get_move cfgIterMM DemoBoard probeHigh 0 [(0, 0), (0, 1)] =
        ((-1 : Int), (-1 : Int)) :=
  (get_move_returns_legal cfgIterMM DemoBoard probeHigh 0 [(0, 0), (0, 1)]
    rfl).1

/-- Claim C10: the agent is deterministic: two runs with probe streams
that return the same value sequence produce identical results for
`minimax`, `alphabeta` and `get_move`; no randomness enters (the model of
the code is a pure function of position, configuration and probe). -/
theorem search_deterministic {σ : Type} (c : CustomPlayer σ) (B : Board σ)
    (probe₁ probe₂ : Nat → Int) (h : ∀ n, probe₁ n = probe₂ n) :
    (∀ d g maxi t, minimax c B probe₁ d g maxi t =
      minimax c B probe₂ d g maxi t) ∧
    (∀ d g alpha beta maxi t, alphabeta c B probe₁ d g alpha beta maxi t =
      alphabeta c B probe₂ d g alpha beta maxi t) ∧
    (∀ g lm, get_move c B probe₁ g lm = get_move c B probe₂ g lm) := by
  have hp : probe₁ = probe₂ := funext h
  subst hp
  exact ⟨fun _ _ _ _ => rfl, fun _ _ _ _ _ _ => rfl, fun _ _ => rfl⟩

/-- Witness for C10 with two syntactically different but pointwise equal
probe streams. -/
theorem search_deterministic_witness :
    get_move cfgIterMM DemoBoard (fun _ => 1000) 0 [(0, 0), (0, 1)] =
      get_move cfgIterMM DemoBoard (fun _ => 999 + 1) 0 [(0, 0), (0, 1)] :=
  (search_deterministic cfgIterMM DemoBoard (fun _ => 1000) (fun _ => 999 + 1)
    (fun n => by norm_num)).2.2 0 [(0, 0), (0, 1)]
